import Mathlib

/-!
Verification development for the kraken-bot core: the decaying-budget rate
limiter, the incremental trade-history synchronizer (fetchNewTrades), the
FIFO cost-basis/P&L engine (buildCostBasis) and its analytics summary.

Modelling conventions:
* JavaScript numbers are modelled as rationals; all arithmetic is exact.
  Timestamps are rationals (milliseconds unless noted; trade times are unix
  seconds, as in the source).
* JavaScript objects used as string-keyed maps (the trade ledger, the
  per-asset cost-basis map) are modelled as insertion-ordered association
  lists, matching the enumeration order of string-keyed objects.
* JavaScript Array.prototype.sort with a numeric comparator is a stable
  sort; it is modelled with the stable List.insertionSort.
* The exchange gateway is modelled as a list of successive page results
  (offset advances by exactly one page per loop iteration); fetching past
  the end of the list yields an empty page, which is how a finite remote
  history answers large offsets.  The rate-limiter reservation made before
  each page fetch does not affect the sync logic and is modelled
  separately; the number of page fetches performed is recorded instead.
-/

attribute [local semireducible] Rat.add Rat.sub Rat.mul Rat.inv
  Rat.ofScientific

namespace KrakenBot

/-! ## Rate limiter (source: rateLimit / decayCounter / waitForRateLimit) -/

structure RateLimit where
  counter : ℚ
  maxCounter : ℚ
  lastDecay : ℚ
  decayRate : ℚ
deriving DecidableEq

/-- Source decayCounter: decay the counter based on time elapsed
(milliseconds since lastDecay), floored at 0. -/
def decayCounter (rl : RateLimit) (now : ℚ) : RateLimit :=
  let elapsed := (now - rl.lastDecay) / 1000
  let decay := elapsed * rl.decayRate
  { rl with counter := max 0 (rl.counter - decay), lastDecay := now }

/-- The while-loop of waitForRateLimit.  Each sleep ends at the next
wall-clock time in the list ts, at which point the counter is decayed
again and the budget re-checked.  If the modelled time steps run out while
the budget check still fails the call has not returned, which is reported
as none. -/
def reserveLoop (cost : ℚ) : RateLimit → List ℚ → Option RateLimit
  | rl, ts =>
    if rl.counter + cost > rl.maxCounter then
      match ts with
      | [] => none
      | t :: rest => reserveLoop cost (decayCounter rl t) rest
    else
      some { rl with counter := rl.counter + cost }

/-- Source waitForRateLimit: decay once at call time t0, then loop until
counter + cost fits under maxCounter, then add cost. -/
def waitForRateLimit (rl : RateLimit) (cost : ℚ) (t0 : ℚ) (ts : List ℚ) :
    Option RateLimit :=
  reserveLoop cost (decayCounter rl t0) ts

/-! ## Trade records and the trade ledger -/

/-- One Kraken trade record as stored in the ledger (numeric fields are the
parsed values of the strings Kraken returns). -/
structure Trade where
  pair : String
  type : String
  price : ℚ
  vol : ℚ
  cost : ℚ
  time : ℚ
deriving DecidableEq

/-- Lookup in an insertion-ordered string-keyed object. -/
def lookupA {β : Type} : List (String × β) → String → Option β
  | [], _ => none
  | (k, v) :: rest, key => if k = key then some v else lookupA rest key

/-- Assignment in an insertion-ordered string-keyed object: an existing key
keeps its position, a new key is appended. -/
def setA {β : Type} : List (String × β) → String → β → List (String × β)
  | [], key, v => [(key, v)]
  | (k, w) :: rest, key, v =>
    if k = key then (k, v) :: rest else (k, w) :: setA rest key v

/-- state.fullTradeHistory. -/
structure TradeHistory where
  trades : List (String × Trade)
  lastFetchTime : Option ℚ
  totalCount : Nat
deriving DecidableEq

/-! ## Cost-basis engine (source: buildCostBasis, per-trade replay) -/

/-- One FIFO lot: { price, amount, remaining, time }. -/
structure Lot where
  price : ℚ
  amount : ℚ
  remaining : ℚ
  time : ℚ
deriving DecidableEq

/-- One entry of cb.completedTrades. -/
structure CompletedTrade where
  sellTime : ℚ
  sellPrice : ℚ
  amount : ℚ
  amountMatched : ℚ
  pnl : ℚ
  pnlPercent : ℚ
deriving DecidableEq

/-- The per-asset cost-basis ledger. -/
structure CostBasis where
  lots : List Lot
  totalInvested : ℚ
  totalReturned : ℚ
  realizedPnL : ℚ
  completedTrades : List CompletedTrade
deriving DecidableEq

/-- The fresh per-asset entry created on first sight of an asset. -/
def emptyCostBasis : CostBasis :=
  { lots := [], totalInvested := 0, totalReturned := 0, realizedPnL := 0,
    completedTrades := [] }

/-- Drop a suffix from a character list when present (string suffix
operations are done on the character list, the content of a String). -/
def dropSuffixIf (suf cs : List Char) : List Char :=
  if suf.isSuffixOf cs then cs.take (cs.length - suf.length) else cs

/-- Source getAssetFromPair, second branch: pair.replace of the trailing
ZEUR or EUR (the regex of an optional Z then EUR anchored at the end,
matched greedily, so ZEUR is removed when present, else EUR). -/
def stripEurSuffix (cs : List Char) : List Char :=
  if (String.toList "ZEUR").isSuffixOf cs then
    dropSuffixIf (String.toList "ZEUR") cs
  else dropSuffixIf (String.toList "EUR") cs

/-- Source getAssetFromPair, third step: strip a trailing staking
marker. -/
def stripDotS (cs : List Char) : List Char :=
  dropSuffixIf (String.toList ".S") cs

/-- Source getAssetFromPair: use the base asset recorded for the pair when
available, otherwise strip the quote-currency suffix (and a staking
marker) from the pair name.  The pairs table is modelled as pair-name to
base-asset. -/
def getAssetFromPair (pairs : List (String × String)) (pair : String) :
    String :=
  match lookupA pairs pair with
  | some base => base
  | none => String.mk (stripDotS (stripEurSuffix pair.toList))

/-- The FIFO matching while-loop of the sell branch.  Arguments are the lot
queue, the sell amount still uncovered, and the costBasisUsed and
amountMatched accumulators; the result is the remaining lot queue and the
two accumulators.  When the head lot is not drained, used = remaining (used
is the min of the two), so the source loop exits at its next check; the
recursion returns directly there. -/
def fifoLoop : List Lot → ℚ → ℚ → ℚ → List Lot × ℚ × ℚ
  | [], _, costBasisUsed, amountMatched => ([], costBasisUsed, amountMatched)
  | lot :: rest, remaining, costBasisUsed, amountMatched =>
    if 0 < remaining then
      let used := min remaining lot.remaining
      let costBasisUsed' := costBasisUsed + used * lot.price
      let amountMatched' := amountMatched + used
      let newRem := lot.remaining - used
      if newRem ≤ 0 then
        fifoLoop rest (remaining - used) costBasisUsed' amountMatched'
      else
        ({ lot with remaining := newRem } :: rest, costBasisUsed',
          amountMatched')
    else (lot :: rest, costBasisUsed, amountMatched)

/-- The body of the replay loop for a single trade on its asset's
cost-basis entry: the buy branch appends a lot, the sell branch runs FIFO
matching and logs a CompletedTrade; any other type leaves the entry
untouched. -/
def applyTrade (cb : CostBasis) (t : Trade) : CostBasis :=
  let amount := t.vol
  let price := t.price
  let cost := t.cost
  if t.type = "buy" then
    { cb with
      lots := cb.lots ++ [{ price := price, amount := amount,
                            remaining := amount, time := t.time }],
      totalInvested := cb.totalInvested + cost }
  else if t.type = "sell" then
    let m := fifoLoop cb.lots amount 0 0
    let lots' := m.1
    let costBasisUsed := m.2.1
    let amountMatched := m.2.2
    let matchedSaleValue :=
      if 0 < amountMatched then (amountMatched / amount) * cost else 0
    let pnl := matchedSaleValue - costBasisUsed
    { cb with
      lots := lots',
      realizedPnL :=
        if 0 < amountMatched then cb.realizedPnL + pnl else cb.realizedPnL,
      totalReturned := cb.totalReturned + cost,
      completedTrades := cb.completedTrades ++
        [{ sellTime := t.time, sellPrice := price, amount := amount,
             amountMatched := amountMatched,
             pnl := if 0 < amountMatched then pnl else 0,
             pnlPercent :=
               if 0 < costBasisUsed then (pnl / costBasisUsed) * 100
               else 0 }] }
  else cb

/-- The cost-basis entry of one asset in the map: the stored entry, or a
fresh empty entry when the asset has none yet (the source creates the
empty entry on first sight of an asset before updating it). -/
def cbOf (m : List (String × CostBasis)) (asset : String) : CostBasis :=
  (lookupA m asset).getD emptyCostBasis

/-- One iteration of the replay loop over the time-sorted trade list:
resolve the asset, take its entry (created empty when missing), and update
it in place. -/
def replayStep (pairs : List (String × String))
    (m : List (String × CostBasis)) (t : Trade) :
    List (String × CostBasis) :=
  let asset := getAssetFromPair pairs t.pair
  setA m asset (applyTrade (cbOf m asset) t)

/-- The replay over all trades, oldest first. -/
def replayTrades (pairs : List (String × String)) (trades : List Trade) :
    List (String × CostBasis) :=
  trades.foldl (replayStep pairs) []

/-! ## Analytics summary (the second half of buildCostBasis) -/

/-- One entry of the recentActivity list. -/
structure ActivityEntry where
  asset : String
  pnl : ℚ
  pnlPercent : ℚ
  sellTime : ℚ
  sellPrice : ℚ
deriving DecidableEq

/-- state.tradeAnalytics.summary (every field a JS number). -/
structure AnalyticsSummary where
  totalTrades : ℚ
  realizedPnL : ℚ
  weeklyPnL : ℚ
  winningTrades : ℚ
  losingTrades : ℚ
  winRate : ℚ
  weeklyWinRate : ℚ
deriving DecidableEq

/-- state.tradeAnalytics. -/
structure TradeAnalytics where
  lastUpdate : ℚ
  summary : AnalyticsSummary
  recentActivity : List ActivityEntry
deriving DecidableEq

/-- The mutable accumulators of the analytics loops in buildCostBasis. -/
structure AnalyticsAccum where
  totalPnL : ℚ
  weeklyPnL : ℚ
  wins : ℚ
  losses : ℚ
  weeklyWins : ℚ
  weeklyLosses : ℚ
  recentActivity : List ActivityEntry
deriving DecidableEq

/-- Source: const oneWeekAgo, the 7-day cutoff in unix seconds computed
from a millisecond clock value. -/
def oneWeekAgoOf (now : ℚ) : ℚ :=
  (now - 7 * 24 * 60 * 60 * 1000) / 1000

/-- The inner analytics loop body, for one CompletedTrade of one asset:
win/loss tally, the 7-day weekly tallies, and the recentActivity push. -/
def accumTrade (asset : String) (weekAgo : ℚ) (acc : AnalyticsAccum)
    (t : CompletedTrade) : AnalyticsAccum :=
  let acc :=
    if 0 ≤ t.pnl then { acc with wins := acc.wins + 1 }
    else { acc with losses := acc.losses + 1 }
  let acc :=
    if weekAgo ≤ t.sellTime then
      { acc with
        weeklyPnL := acc.weeklyPnL + t.pnl,
        weeklyWins :=
          if 0 ≤ t.pnl then acc.weeklyWins + 1 else acc.weeklyWins,
        weeklyLosses :=
          if 0 ≤ t.pnl then acc.weeklyLosses else acc.weeklyLosses + 1 }
    else acc
  { acc with
    recentActivity := acc.recentActivity ++
      [{ asset := asset, pnl := t.pnl, pnlPercent := t.pnlPercent,
           sellTime := t.sellTime, sellPrice := t.sellPrice }] }

/-- The outer analytics loop body, for one asset of the cost-basis map. -/
def accumAsset (weekAgo : ℚ) (acc : AnalyticsAccum)
    (e : String × CostBasis) : AnalyticsAccum :=
  let acc := { acc with totalPnL := acc.totalPnL + e.2.realizedPnL }
  e.2.completedTrades.foldl (accumTrade e.1 weekAgo) acc

/-- The loop over the displayed (50 most recent) trades, accumulating
(displayedPnL, displayedWins, displayedLosses). -/
def displayedTally (displayed : List ActivityEntry) : ℚ × ℚ × ℚ :=
  displayed.foldl
    (fun acc t =>
      (acc.1 + t.pnl,
        (if 0 ≤ t.pnl then acc.2.1 + 1 else acc.2.1),
        (if 0 ≤ t.pnl then acc.2.2 else acc.2.2 + 1)))
    (0, 0, 0)

/-- The zero-initialised analytics accumulators. -/
def analyticsInit : AnalyticsAccum :=
  { totalPnL := 0, weeklyPnL := 0, wins := 0, losses := 0,
    weeklyWins := 0, weeklyLosses := 0, recentActivity := [] }

/-- The analytics half of buildCostBasis: tally all CompletedTrades, sort
recentActivity by sellTime descending (stable, as the source comparator
returns 0 on ties), slice to the 50 most recent, and assemble the summary;
the weeklyPnL and weeklyWinRate fields are filled from the displayed-slice
tallies. -/
def buildAnalytics (m : List (String × CostBasis)) (now : ℚ) :
    TradeAnalytics :=
  let weekAgo := oneWeekAgoOf now
  let acc := m.foldl (accumAsset weekAgo) analyticsInit
  let sorted := acc.recentActivity.insertionSort
    (fun a b => b.sellTime ≤ a.sellTime)
  let displayed := sorted.take 50
  let d := displayedTally displayed
  { lastUpdate := now,
    summary :=
      { totalTrades := acc.wins + acc.losses,
        realizedPnL := acc.totalPnL,
        weeklyPnL := d.1,
        winningTrades := acc.wins,
        losingTrades := acc.losses,
        winRate :=
          if 0 < acc.wins + acc.losses then
            acc.wins / (acc.wins + acc.losses) * 100
          else 0,
        weeklyWinRate :=
          if 0 < d.2.1 + d.2.2 then d.2.1 / (d.2.1 + d.2.2) * 100
          else 0 },
    recentActivity := displayed }

/-- Source buildCostBasis: take the ledger's trades in object-value order,
stable-sort them by time ascending, rebuild the per-asset cost-basis map
from scratch, and build the analytics summary. -/
def buildCostBasis (tradesMap : List (String × Trade))
    (pairs : List (String × String)) (now : ℚ) :
    List (String × CostBasis) × TradeAnalytics :=
  let trades :=
    (tradesMap.map Prod.snd).insertionSort (fun a b => a.time ≤ b.time)
  let m := replayTrades pairs trades
  (m, buildAnalytics m now)

/-- The slice of the global state that the sync and rebuild touch. -/
structure BotState where
  fullTradeHistory : TradeHistory
  costBasis : List (String × CostBasis)
  tradeAnalytics : TradeAnalytics
deriving DecidableEq

/-- buildCostBasis as it acts on the global state: it reads only the trade
ledger and the clock, and overwrites state.costBasis and
state.tradeAnalytics. -/
def buildCostBasisState (pairs : List (String × String)) (now : ℚ)
    (s : BotState) : BotState :=
  let r := buildCostBasis s.fullTradeHistory.trades pairs now
  { s with costBasis := r.1, tradeAnalytics := r.2 }

/-! ## Incremental trade sync (source: fetchNewTrades) -/

/-- The outcome of one TradesHistory page call: either a gateway error or
the page's records (a string-keyed object, modelled in enumeration
order). -/
inductive PageResult where
  | error : PageResult
  | page : List (String × Trade) → PageResult
deriving DecidableEq

/-- The accumulators of one pass over a page's records: the ledger's
trades object, the newInPage counter, and the hitExisting flag. -/
structure MergeAcc where
  trades : List (String × Trade)
  newInPage : Nat
  hitExisting : Bool
deriving DecidableEq

/-- The inner for-loop of fetchNewTrades: for each record of the page, an
id already present in the trades object sets hitExisting, an unknown id is
inserted and counted. -/
def mergePage (acc : MergeAcc) : List (String × Trade) → MergeAcc
  | [] => acc
  | (id, trade) :: rest =>
    if (lookupA acc.trades id).isSome then
      mergePage { acc with hitExisting := true } rest
    else
      mergePage
        { acc with trades := acc.trades ++ [(id, trade)],
                   newInPage := acc.newInPage + 1 } rest

/-- The result of the page loop of fetchNewTrades: the merged trades
object, the newTradesCount total, and the number of page fetches
performed. -/
structure LoopOut where
  trades : List (String × Trade)
  newTradesCount : Nat
  fetchCount : Nat
deriving DecidableEq

/-- The while-loop of fetchNewTrades.  The head of the page list is the
page at the current offset; the offset advances by exactly one page per
iteration, and an offset beyond the supplied pages is answered with an
empty page.  Breaks in source order: gateway error, empty page, zero new
ids in the page, short page (< 50); otherwise the loop condition
(!hitExisting) is re-checked before the next fetch. -/
def syncPages : List PageResult → List (String × Trade) → Nat → Nat →
    LoopOut
  | [], trades, n, f =>
    { trades := trades, newTradesCount := n, fetchCount := f + 1 }
  | PageResult.error :: _, trades, n, f =>
    { trades := trades, newTradesCount := n, fetchCount := f + 1 }
  | PageResult.page records :: rest, trades, n, f =>
    if records.length = 0 then
      { trades := trades, newTradesCount := n, fetchCount := f + 1 }
    else
      let acc := mergePage
        { trades := trades, newInPage := 0, hitExisting := false } records
      if acc.newInPage = 0 then
        { trades := acc.trades, newTradesCount := n + acc.newInPage,
          fetchCount := f + 1 }
      else if records.length < 50 then
        { trades := acc.trades, newTradesCount := n + acc.newInPage,
          fetchCount := f + 1 }
      else if acc.hitExisting then
        { trades := acc.trades, newTradesCount := n + acc.newInPage,
          fetchCount := f + 1 }
      else syncPages rest acc.trades (n + acc.newInPage) (f + 1)

/-- What a completed fetchNewTrades call produced: the new global state,
the page-fetch and new-record counts, and which durable stores were
written. -/
structure SyncResult where
  state : BotState
  fetchCount : Nat
  newTradesCount : Nat
  savedTradeHistory : Bool
  savedCostBasis : Bool
  savedAnalytics : Bool
deriving DecidableEq

/-- Source fetchNewTrades: run the page loop from offset 0; if at least one
new record was merged, update totalCount and lastFetchTime and persist the
trade ledger; then always rebuild the cost basis (persisting the cost-basis
and analytics stores) and return the trade ledger.  Gateway errors never
escape: the page callback converts them into a loop break, and the function
returns the ledger through the same path as a success. -/
def fetchNewTrades (pages : List PageResult)
    (pairs : List (String × String)) (now : ℚ) (s : BotState) :
    SyncResult :=
  let out := syncPages pages s.fullTradeHistory.trades 0 0
  let hist :=
    if 0 < out.newTradesCount then
      { trades := out.trades, totalCount := out.trades.length,
        lastFetchTime := some now }
    else { s.fullTradeHistory with trades := out.trades }
  let s' := buildCostBasisState pairs now { s with fullTradeHistory := hist }
  { state := s', fetchCount := out.fetchCount,
    newTradesCount := out.newTradesCount,
    savedTradeHistory := decide (0 < out.newTradesCount),
    savedCostBasis := true, savedAnalytics := true }

/-! ## Spec-side derived views (for comparison with the code's analytics)

The next definitions are modelled from the spec's words, not from the
source; they give the two "recent" windows the spec describes so the
code's output can be compared against them. -/

/-- All CompletedTrades of one asset as activity entries. -/
def activityOf (asset : String) (cb : CostBasis) : List ActivityEntry :=
  cb.completedTrades.map (fun t =>
    { asset := asset, pnl := t.pnl, pnlPercent := t.pnlPercent,
      sellTime := t.sellTime, sellPrice := t.sellPrice })

/-- All CompletedTrades across all assets, in map order. -/
def allActivity (m : List (String × CostBasis)) : List ActivityEntry :=
  (m.map (fun e => activityOf e.1 e.2)).flatten

/-- Modelled from the spec: the count window — sort all CompletedTrades by
sellTime descending, take the first 50. -/
def specCountWindow (m : List (String × CostBasis)) : List ActivityEntry :=
  ((allActivity m).insertionSort (fun a b => b.sellTime ≤ a.sellTime)).take
    50

/-- Modelled from the spec: the count window's own P&L sum. -/
def specCountWindowPnL (m : List (String × CostBasis)) : ℚ :=
  ((specCountWindow m).map (fun t => t.pnl)).sum

/-- Modelled from the spec: the count window's own win rate (percentage of
entries with pnl greater or equal 0, or 0 for an empty window). -/
def specCountWindowWinRate (m : List (String × CostBasis)) : ℚ :=
  let wins := ((specCountWindow m).filter (fun t => 0 ≤ t.pnl)).length
  let losses := ((specCountWindow m).filter (fun t => ¬ 0 ≤ t.pnl)).length
  if 0 < wins + losses then (wins : ℚ) / ((wins : ℚ) + (losses : ℚ)) * 100
  else 0

/-- Modelled from the spec: the time window's own P&L sum — filter
CompletedTrades with sellTime at least now minus 7 days and sum their
pnl. -/
def specTimeWindowPnL (m : List (String × CostBasis)) (now : ℚ) : ℚ :=
  (((allActivity m).filter (fun t => oneWeekAgoOf now ≤ t.sellTime)).map
    (fun t => t.pnl)).sum

/-- The sum of the remaining amounts over a lot queue. -/
def remainingSum (lots : List Lot) : ℚ :=
  (lots.map (fun l => l.remaining)).sum

/-- The sum of amountMatched over a completed-trade log. -/
def matchedSum (cb : CostBasis) : ℚ :=
  (cb.completedTrades.map (fun t => t.amountMatched)).sum

/-- The total bought volume of one asset over a trade list. -/
def buyVolume (pairs : List (String × String)) (asset : String)
    (trades : List Trade) : ℚ :=
  ((trades.filter (fun t =>
      t.type = "buy" ∧ getAssetFromPair pairs t.pair = asset)).map
    (fun t => t.vol)).sum

/-- The numeric values the analytics summary surfaces. -/
def summaryValues (s : AnalyticsSummary) : List ℚ :=
  [s.totalTrades, s.realizedPnL, s.weeklyPnL, s.winningTrades,
    s.losingTrades, s.winRate, s.weeklyWinRate]

/-! ## Concrete instances used by counterexamples and witnesses -/

def rlW : RateLimit :=
  { counter := 10, maxCounter := 15, lastDecay := 0, decayRate := 33/100 }

def rlW' : RateLimit :=
  { counter := 12, maxCounter := 15, lastDecay := 0, decayRate := 33/100 }

/-- Scenario A lot queue: 1.0 at 10000 (older), then 1.0 at 20000. -/
def lotsA : List Lot :=
  [{ price := 10000, amount := 1, remaining := 1, time := 1 },
   { price := 20000, amount := 1, remaining := 1, time := 2 }]

/-- Scenario A per-asset state before the sell. -/
def cbA : CostBasis :=
  { lots := lotsA, totalInvested := 30000, totalReturned := 0,
    realizedPnL := 0, completedTrades := [] }

/-- Scenario A sell trade: amount 1.5, notional cost 37500. -/
def sellA : Trade :=
  { pair := "XXBTZEUR", type := "sell", price := 25000, vol := 3/2,
    cost := 37500, time := 3 }

/-- Scenario B sell trade: sell 2.0 for cost 500 with no prior lots. -/
def sellB : Trade :=
  { pair := "XEUR", type := "sell", price := 250, vol := 2, cost := 500,
    time := 10 }

/-- Four trades over two assets: asset A sold long ago with profit 100,
asset B sold recently with profit 7. -/
def trades4 : List (String × Trade) :=
  [("b1", { pair := "AEUR", type := "buy", price := 10, vol := 1,
            cost := 10, time := 100 }),
   ("s1", { pair := "AEUR", type := "sell", price := 110, vol := 1,
            cost := 110, time := 200 }),
   ("b2", { pair := "BEUR", type := "buy", price := 5, vol := 1,
            cost := 5, time := 300 }),
   ("s2", { pair := "BEUR", type := "sell", price := 12, vol := 1,
            cost := 12, time := 1000000 })]

/-- A clock value whose 7-day cutoff (500 seconds) separates the two
sells of trades4: the old sell at 200 is outside the week, the recent
sell at 1000000 is inside. -/
def now0 : ℚ := 605300000

/-- A small fixed trade used to populate concrete pages and ledgers. -/
def mkTrade (i : Nat) : Trade :=
  { pair := "XEUR", type := "buy", price := 1, vol := 1, cost := 1,
    time := (i : ℚ) }

/-- A full page of 50 records with ids t0 .. t49. -/
def page50 : List (String × Trade) :=
  (List.range 50).map (fun i => ("t" ++ toString i, mkTrade i))

/-- A one-entry ledger whose id does not occur in page50. -/
def histOld : List (String × Trade) := [("old", mkTrade 999)]

/-- A one-entry ledger containing t0, which also occurs in page50. -/
def histT0 : List (String × Trade) := [("t0", mkTrade 0)]

/-- An empty analytics record, for assembling concrete states. -/
def emptyAnalytics : TradeAnalytics :=
  { lastUpdate := 0,
    summary := { totalTrades := 0, realizedPnL := 0, weeklyPnL := 0,
                 winningTrades := 0, losingTrades := 0, winRate := 0,
                 weeklyWinRate := 0 },
    recentActivity := [] }

/-- A concrete pre-sync state whose ledger holds one old record. -/
def stateOld : BotState :=
  { fullTradeHistory :=
      { trades := histOld, lastFetchTime := some 111, totalCount := 1 },
    costBasis := [], tradeAnalytics := emptyAnalytics }

/-- A concrete pre-sync state whose ledger holds t0. -/
def stateT0 : BotState :=
  { fullTradeHistory :=
      { trades := histT0, lastFetchTime := some 111, totalCount := 1 },
    costBasis := [], tradeAnalytics := emptyAnalytics }

/-! ## Theorems -/

theorem decayCounter_counter_nonneg (rl : RateLimit) (now : ℚ) :
    0 ≤ (decayCounter rl now).counter :=
  le_max_left 0 _

theorem reserveLoop_sound (cost : ℚ) :
    ∀ (ts : List ℚ) (rl rl' : RateLimit),
      reserveLoop cost rl ts = some rl' →
      rl'.maxCounter = rl.maxCounter ∧ rl'.counter ≤ rl.maxCounter ∧
        (0 ≤ rl.counter → 0 ≤ cost → 0 ≤ rl'.counter) := by
  intro ts
  induction ts with
  | nil =>
    intro rl rl' h
    rw [reserveLoop] at h
    split at h
    · exact absurd h (by simp)
    · rename_i hle
      cases h
      refine ⟨rfl, by simpa using not_lt.mp hle, fun h1 h2 => ?_⟩
      simpa using add_nonneg h1 h2
  | cons t rest ih =>
    intro rl rl' h
    rw [reserveLoop] at h
    split at h
    · have := ih (decayCounter rl t) rl' h
      exact ⟨this.1, this.2.1, fun _ _ =>
        this.2.2 (decayCounter_counter_nonneg rl t) (by assumption)⟩
    · rename_i hle
      cases h
      refine ⟨rfl, by simpa using not_lt.mp hle, fun h1 h2 => ?_⟩
      simpa using add_nonneg h1 h2

theorem decayCounter_zero (rl : RateLimit) (now : ℚ)
    (hrate : 0 < rl.decayRate)
    (h : 1000 * (rl.counter / rl.decayRate) ≤ now - rl.lastDecay) :
    (decayCounter rl now).counter = 0 := by
  have hr : rl.decayRate ≠ 0 := ne_of_gt hrate
  have h2 : 1000 * rl.counter ≤ (now - rl.lastDecay) * rl.decayRate := by
    have := mul_le_mul_of_nonneg_right h (le_of_lt hrate)
    rwa [mul_assoc, div_mul_cancel₀ _ hr] at this
  have h3 : rl.counter - (now - rl.lastDecay) / 1000 * rl.decayRate ≤ 0 := by
    have he : (now - rl.lastDecay) / 1000 * rl.decayRate =
        (now - rl.lastDecay) * rl.decayRate / 1000 := by ring
    rw [he]
    linarith
  exact max_eq_left h3

/-- C4: after any reserve call that returns, the counter is at most
maxCounter; the counter is never negative (decay floors it at 0 and a
granted reservation adds a non-negative cost to a non-negative counter);
and once the elapsed wall-clock time reaches counter/decayRate seconds the
next decay pass brings the counter to exactly 0. -/
theorem rateLimit_budget_invariant (rl rl' : RateLimit) (cost t0 now : ℚ)
    (ts : List ℚ) (hc : 0 ≤ rl.counter) (hcost : 0 ≤ cost) :
    (waitForRateLimit rl cost t0 ts = some rl' →
      rl'.counter ≤ rl.maxCounter ∧ 0 ≤ rl'.counter) ∧
    0 ≤ (decayCounter rl now).counter ∧
    (0 < rl.decayRate →
      1000 * (rl.counter / rl.decayRate) ≤ now - rl.lastDecay →
      (decayCounter rl now).counter = 0) := by
  refine ⟨fun h => ?_, decayCounter_counter_nonneg rl now,
    fun h1 h2 => decayCounter_zero rl now h1 h2⟩
  have := reserveLoop_sound cost ts (decayCounter rl t0) rl' h
  exact ⟨this.1 ▸ this.2.1, this.2.2 (decayCounter_counter_nonneg rl t0) hcost⟩

/-- C4 witness: a concrete reservation of cost 2 against a counter of 10
is granted immediately and lands at 12, within the budget of 15; after
40000 ms with no calls the decay pass zeroes the counter. -/
theorem rateLimit_budget_invariant_witness :
    waitForRateLimit rlW 2 0 [] = some rlW' ∧
      rlW'.counter ≤ rlW.maxCounter ∧ 0 ≤ rlW'.counter ∧
      (decayCounter rlW 40000).counter = 0 := by
  refine ⟨by decide, ?_, ?_, ?_⟩
  · exact ((rateLimit_budget_invariant rlW rlW' 2 0 40000 []
      (by decide) (by decide)).1 (by decide)).1
  · exact ((rateLimit_budget_invariant rlW rlW' 2 0 40000 []
      (by decide) (by decide)).1 (by decide)).2
  · exact (rateLimit_budget_invariant rlW rlW' 2 0 40000 []
      (by decide) (by decide)).2.2 (by decide) (by decide)

/-- C5: Scenario A — against lots of 1.0 at 10000 and 1.0 at 20000, a sell
of 1.5 with notional cost 37500 matches 1.5 with cost basis 20000, books a
pnl of 17500 into realizedPnL, and leaves a single lot of 0.5 at 20000
(the drained first lot is removed from the front of the queue). -/
theorem fifo_scenarioA :
    fifoLoop lotsA (3/2) 0 0 =
      ([{ price := 20000, amount := 1, remaining := 1/2, time := 2 }],
        20000, 3/2) ∧
    applyTrade cbA sellA =
      { lots := [{ price := 20000, amount := 1, remaining := 1/2,
                   time := 2 }],
        totalInvested := 30000, totalReturned := 37500,
        realizedPnL := 17500,
        completedTrades := [{ sellTime := 3, sellPrice := 25000,
                               amount := 3/2, amountMatched := 3/2,
                               pnl := 17500, pnlPercent := 175/2 }] } := by
  constructor
  · decide
  · decide

/-- C6: a sell processed with no available lots matches nothing: pnl is
recorded as 0, realizedPnL is unchanged, the full cost is added to
totalReturned, and a CompletedTrade with pnl 0 and pnlPercent 0 is still
appended. -/
theorem applyTrade_sell_no_lots (cb : CostBasis) (t : Trade)
    (hl : cb.lots = []) (ht : t.type = "sell") :
    applyTrade cb t =
      { cb with
        totalReturned := cb.totalReturned + t.cost,
        completedTrades := cb.completedTrades ++
          [{ sellTime := t.time, sellPrice := t.price, amount := t.vol,
             amountMatched := 0, pnl := 0, pnlPercent := 0 }] } := by
  have hb : ¬ t.type = "buy" := by rw [ht]; decide
  simp [applyTrade, hb, ht, hl, fifoLoop]

/-- C6 witness: Scenario B — with no lots, selling 2.0 for 500 leaves
realizedPnL at 0, adds 500 to totalReturned, and logs a zero-pnl
CompletedTrade. -/
theorem applyTrade_sell_no_lots_witness :
    emptyCostBasis.lots = [] ∧ sellB.type = "sell" ∧
    applyTrade emptyCostBasis sellB =
      { emptyCostBasis with
        totalReturned := emptyCostBasis.totalReturned + sellB.cost,
        completedTrades := emptyCostBasis.completedTrades ++
          [{ sellTime := sellB.time, sellPrice := sellB.price,
             amount := sellB.vol, amountMatched := 0, pnl := 0,
             pnlPercent := 0 }] } :=
  ⟨rfl, rfl, applyTrade_sell_no_lots emptyCostBasis sellB rfl rfl⟩

/-- C9: the cost-basis rebuild is idempotent — it reads only the trade
ledger (which it does not modify) and the clock, and overwrites the
derived stores from scratch, so a second rebuild from the unchanged
ledger at the same evaluation time produces identical output. -/
theorem buildCostBasisState_idempotent (pairs : List (String × String))
    (now : ℚ) (s : BotState) :
    buildCostBasisState pairs now (buildCostBasisState pairs now s) =
      buildCostBasisState pairs now s :=
  rfl

theorem lookupA_append_of_none {β : Type} :
    ∀ (xs ys : List (String × β)) (k : String),
      lookupA xs k = none → lookupA (xs ++ ys) k = lookupA ys k := by
  intro xs ys k
  induction xs with
  | nil => intro _; rfl
  | cons p rest ih =>
    intro h
    rw [lookupA] at h
    by_cases hk : p.1 = k
    · rw [if_pos hk] at h; exact absurd h (by simp)
    · rw [if_neg hk] at h
      show lookupA (p :: (rest ++ ys)) k = lookupA ys k
      rw [lookupA, if_neg hk]
      exact ih h

theorem lookupA_append_of_some {β : Type} :
    ∀ (xs ys : List (String × β)) (k : String) (v : β),
      lookupA xs k = some v → lookupA (xs ++ ys) k = some v := by
  intro xs ys k v
  induction xs with
  | nil => intro h; exact absurd h (by simp [lookupA])
  | cons p rest ih =>
    intro h
    rw [lookupA] at h
    by_cases hk : p.1 = k
    · rw [if_pos hk] at h
      show lookupA (p :: (rest ++ ys)) k = some v
      rw [lookupA, if_pos hk]; exact h
    · rw [if_neg hk] at h
      show lookupA (p :: (rest ++ ys)) k = some v
      rw [lookupA, if_neg hk]
      exact ih h

theorem mergePage_all_new :
    ∀ (records : List (String × Trade)) (acc : MergeAcc),
      (∀ id ∈ records.map Prod.fst, lookupA acc.trades id = none) →
      (records.map Prod.fst).Nodup →
      mergePage acc records =
        { trades := acc.trades ++ records,
          newInPage := acc.newInPage + records.length,
          hitExisting := acc.hitExisting } := by
  intro records
  induction records with
  | nil => intro acc _ _; simp [mergePage]
  | cons r rest ih =>
    intro acc hnew hnd
    obtain ⟨id, tr⟩ := r
    have h0 : lookupA acc.trades id = none := hnew id (by simp)
    rw [mergePage, if_neg (by simp [h0])]
    rw [List.map_cons, List.nodup_cons] at hnd
    have hrest : ∀ i ∈ rest.map Prod.fst,
        lookupA (acc.trades ++ [(id, tr)]) i = none := by
      intro i hi
      have hne : ¬ id = i := fun he => hnd.1 (he ▸ hi)
      rw [lookupA_append_of_none _ _ _ (hnew i (by simp [hi]))]
      simp [lookupA, hne]
    have := ih { acc with trades := acc.trades ++ [(id, tr)],
                          newInPage := acc.newInPage + 1 } hrest hnd.2
    rw [this]
    simp [List.append_assoc]
    omega

theorem mergePage_hit_sticky :
    ∀ (records : List (String × Trade)) (acc : MergeAcc),
      acc.hitExisting = true →
      (mergePage acc records).hitExisting = true := by
  intro records
  induction records with
  | nil => intro acc h; exact h
  | cons r rest ih =>
    intro acc h
    obtain ⟨id, tr⟩ := r
    rw [mergePage]
    by_cases hl : (lookupA acc.trades id).isSome
    · rw [if_pos hl]; exact ih _ rfl
    · rw [if_neg hl]; exact ih _ h

theorem mergePage_hit_of_known :
    ∀ (records : List (String × Trade)) (acc : MergeAcc) (id : String),
      id ∈ records.map Prod.fst → (lookupA acc.trades id).isSome →
      (mergePage acc records).hitExisting = true := by
  intro records
  induction records with
  | nil => intro acc id h _; simp at h
  | cons r rest ih =>
    intro acc id hmem hsome
    obtain ⟨rid, rtr⟩ := r
    rw [List.map_cons] at hmem
    rw [mergePage]
    rcases List.mem_cons.mp hmem with he | hrest
    · subst he
      rw [if_pos hsome]
      exact mergePage_hit_sticky _ _ rfl
    · by_cases hl : (lookupA acc.trades rid).isSome
      · rw [if_pos hl]
        exact ih _ id hrest hsome
      · rw [if_neg hl]
        refine ih _ id hrest ?_
        obtain ⟨v, hv⟩ := Option.isSome_iff_exists.mp hsome
        show (lookupA (acc.trades ++ [(rid, rtr)]) id).isSome
        rw [lookupA_append_of_some _ _ _ _ hv]
        rfl

theorem mergePage_all_known :
    ∀ (records : List (String × Trade)) (acc : MergeAcc),
      (∀ id ∈ records.map Prod.fst, (lookupA acc.trades id).isSome) →
      (mergePage acc records).trades = acc.trades ∧
        (mergePage acc records).newInPage = acc.newInPage := by
  intro records
  induction records with
  | nil => intro acc _; exact ⟨rfl, rfl⟩
  | cons r rest ih =>
    intro acc hk
    obtain ⟨rid, rtr⟩ := r
    rw [mergePage, if_pos (hk rid (by simp))]
    exact ih _ (fun i hi => hk i (by simp [hi]))

theorem mergePage_newInPage_mono :
    ∀ (records : List (String × Trade)) (acc : MergeAcc),
      acc.newInPage ≤ (mergePage acc records).newInPage := by
  intro records
  induction records with
  | nil => intro acc; exact le_refl _
  | cons r rest ih =>
    intro acc
    obtain ⟨rid, rtr⟩ := r
    rw [mergePage]
    by_cases hl : (lookupA acc.trades rid).isSome
    · rw [if_pos hl]
      exact ih { acc with hitExisting := true }
    · rw [if_neg hl]
      exact le_trans (Nat.le_succ _)
        (ih { acc with trades := acc.trades ++ [(rid, rtr)],
                       newInPage := acc.newInPage + 1 })

theorem mergePage_trades_of_no_new :
    ∀ (records : List (String × Trade)) (acc : MergeAcc),
      (mergePage acc records).newInPage = acc.newInPage →
      (mergePage acc records).trades = acc.trades := by
  intro records
  induction records with
  | nil => intro acc _; rfl
  | cons r rest ih =>
    intro acc h
    obtain ⟨rid, rtr⟩ := r
    rw [mergePage] at h ⊢
    by_cases hl : (lookupA acc.trades rid).isSome
    · rw [if_pos hl] at h ⊢
      exact ih _ h
    · rw [if_neg hl] at h
      have := mergePage_newInPage_mono rest
        { acc with trades := acc.trades ++ [(rid, rtr)],
                   newInPage := acc.newInPage + 1 }
      simp only at this
      omega

theorem syncPages_newCount_mono :
    ∀ (ps : List PageResult) (ts : List (String × Trade)) (n f : Nat),
      n ≤ (syncPages ps ts n f).newTradesCount := by
  intro ps
  induction ps with
  | nil => intro ts n f; exact le_refl _
  | cons p rest ih =>
    intro ts n f
    cases p with
    | error => exact le_refl _
    | page records =>
      rw [syncPages]
      by_cases h0 : records.length = 0
      · rw [if_pos h0]
      · rw [if_neg h0]
        simp only
        split
        · exact Nat.le_add_right _ _
        · split
          · exact Nat.le_add_right _ _
          · split
            · exact Nat.le_add_right _ _
            · exact le_trans (Nat.le_add_right _ _) (ih _ _ _)

theorem syncPages_fetch_ge :
    ∀ (ps : List PageResult) (ts : List (String × Trade)) (n f : Nat),
      f + 1 ≤ (syncPages ps ts n f).fetchCount := by
  intro ps
  induction ps with
  | nil => intro ts n f; exact le_refl _
  | cons p rest ih =>
    intro ts n f
    cases p with
    | error => exact le_refl _
    | page records =>
      rw [syncPages]
      by_cases h0 : records.length = 0
      · rw [if_pos h0]
      · rw [if_neg h0]
        simp only
        split
        · exact le_refl _
        · split
          · exact le_refl _
          · split
            · exact le_refl _
            · exact le_trans (Nat.le_succ _) (ih _ _ _)

theorem syncPages_trades_of_no_new :
    ∀ (ps : List PageResult) (ts : List (String × Trade)) (n f : Nat),
      (syncPages ps ts n f).newTradesCount = n →
      (syncPages ps ts n f).trades = ts := by
  intro ps
  induction ps with
  | nil => intro ts n f _; rfl
  | cons p rest ih =>
    intro ts n f h
    cases p with
    | error => rfl
    | page records =>
      rw [syncPages] at h ⊢
      by_cases h0 : records.length = 0
      · rw [if_pos h0] at h ⊢
      · rw [if_neg h0] at h ⊢
        simp only at h ⊢
        set acc :=
          mergePage { trades := ts, newInPage := 0, hitExisting := false }
            records with hacc
        by_cases hz : acc.newInPage = 0
        · rw [if_pos hz] at h ⊢
          rw [hacc] at hz ⊢
          exact mergePage_trades_of_no_new records _ hz
        · rw [if_neg hz] at h ⊢
          by_cases h50 : records.length < 50
          · rw [if_pos h50] at h
            have h2 : n + acc.newInPage = n := h
            omega
          · rw [if_neg h50] at h ⊢
            by_cases hhit : acc.hitExisting = true
            · rw [if_pos hhit] at h
              have h2 : n + acc.newInPage = n := h
              omega
            · rw [if_neg hhit] at h ⊢
              have := syncPages_newCount_mono rest acc.trades
                (n + acc.newInPage) (f + 1)
              omega

theorem syncPages_converged (rest : List PageResult)
    (ts : List (String × Trade)) (n f : Nat)
    (records : List (String × Trade))
    (h : ∀ id ∈ records.map Prod.fst, (lookupA ts id).isSome) :
    syncPages (PageResult.page records :: rest) ts n f =
      { trades := ts, newTradesCount := n, fetchCount := f + 1 } := by
  rw [syncPages]
  by_cases h0 : records.length = 0
  · rw [if_pos h0]
  · rw [if_neg h0]
    simp only
    have hall := mergePage_all_known records
      { trades := ts, newInPage := 0, hitExisting := false } h
    have hz : (mergePage { trades := ts, newInPage := 0,
                           hitExisting := false } records).newInPage = 0 :=
      hall.2
    rw [if_pos hz, hall.1, hz]
    simp

/-- C8: when the non-empty local ledger already contains every trade the
gateway can serve, an incremental sync performs exactly one page fetch and
leaves the trade ledger (trades map, totalCount, lastFetchTime) entirely
unchanged. -/
theorem fetchNewTrades_converged (pages : List PageResult)
    (pairs : List (String × String)) (now : ℚ) (s : BotState)
    (hne : s.fullTradeHistory.trades ≠ [])
    (hnoerr : ∀ p ∈ pages, p ≠ PageResult.error)
    (hknown : ∀ records, PageResult.page records ∈ pages →
      ∀ id ∈ records.map Prod.fst,
        (lookupA s.fullTradeHistory.trades id).isSome) :
    (fetchNewTrades pages pairs now s).fetchCount = 1 ∧
      (fetchNewTrades pages pairs now s).state.fullTradeHistory =
        s.fullTradeHistory := by
  have hout : syncPages pages s.fullTradeHistory.trades 0 0 =
      { trades := s.fullTradeHistory.trades, newTradesCount := 0,
        fetchCount := 1 } := by
    cases pages with
    | nil => rfl
    | cons p ps =>
      cases p with
      | error => exact absurd rfl (hnoerr _ (by simp))
      | page records =>
        exact syncPages_converged ps _ 0 0 records
          (hknown records (by simp))
  constructor
  · show (syncPages pages s.fullTradeHistory.trades 0 0).fetchCount = 1
    rw [hout]
  · show (buildCostBasisState pairs now _).fullTradeHistory =
      s.fullTradeHistory
    simp only [fetchNewTrades, buildCostBasisState, hout]
    rw [if_neg (by omega)]

theorem mergePage_all_new0 (records : List (String × Trade))
    (ts : List (String × Trade))
    (hnew : ∀ id ∈ records.map Prod.fst, lookupA ts id = none)
    (hnd : (records.map Prod.fst).Nodup) :
    mergePage { trades := ts, newInPage := 0, hitExisting := false }
        records =
      { trades := ts ++ records, newInPage := records.length,
        hitExisting := false } := by
  rw [mergePage_all_new records _ hnew hnd]
  simp

/-- C3 amended: the sync loop stops after a fetched page exactly when the
gateway errored, or the page had any previously-seen id, had fewer than 50
records, or was empty; it fetches a further page exactly when the page had
at least 50 records all of whose ids were previously unseen. -/
theorem syncPages_stop_iff (records : List (String × Trade))
    (rest : List PageResult) (ts : List (String × Trade)) (n f : Nat)
    (hnd : (records.map Prod.fst).Nodup) :
    (syncPages (PageResult.error :: rest) ts n f).fetchCount = f + 1 ∧
    ((syncPages (PageResult.page records :: rest) ts n f).fetchCount =
        f + 1 ↔
      ¬ (50 ≤ records.length ∧
          ∀ id ∈ records.map Prod.fst, lookupA ts id = none)) := by
  refine ⟨rfl, ?_⟩
  by_cases hcond : 50 ≤ records.length ∧
      ∀ id ∈ records.map Prod.fst, lookupA ts id = none
  · refine iff_of_false ?_ (not_not_intro hcond)
    obtain ⟨h50, hnew⟩ := hcond
    have hx : syncPages (PageResult.page records :: rest) ts n f =
        syncPages rest (ts ++ records) (n + records.length) (f + 1) := by
      rw [syncPages, if_neg (by omega : ¬ records.length = 0)]
      simp only
      rw [mergePage_all_new0 records ts hnew hnd]
      rw [if_neg (fun hc => absurd (hc : records.length = 0) (by omega))]
      rw [if_neg (by omega : ¬ records.length < 50)]
      rw [if_neg (fun hc => Bool.noConfusion (hc : (false : Bool) = true))]
    rw [hx]
    have := syncPages_fetch_ge rest (ts ++ records)
      (n + records.length) (f + 1)
    omega
  · refine iff_of_true ?_ hcond
    rw [syncPages]
    by_cases h0 : records.length = 0
    · rw [if_pos h0]
    · rw [if_neg h0]
      simp only
      set acc :=
        mergePage { trades := ts, newInPage := 0, hitExisting := false }
          records with hacc
      by_cases hz : acc.newInPage = 0
      · rw [if_pos hz]
      · rw [if_neg hz]
        by_cases h50 : records.length < 50
        · rw [if_pos h50]
        · rw [if_neg h50]
          by_cases hhit : acc.hitExisting = true
          · rw [if_pos hhit]
          · exfalso
            refine hcond ⟨by omega, fun id hid => ?_⟩
            by_contra hk
            refine hhit ?_
            rw [hacc]
            refine mergePage_hit_of_known records _ id hid ?_
            cases hl : lookupA ts id with
            | none => exact absurd hl hk
            | some v => rfl

/-- C3 amended witness: a single short page (one record, unseen) stops the
loop after one fetch, and an immediate gateway error also stops after one
fetch. -/
theorem syncPages_stop_iff_witness :
    (histOld.map Prod.fst).Nodup ∧
    (syncPages [PageResult.error] [] 0 0).fetchCount = 0 + 1 ∧
    ((syncPages [PageResult.page histOld, PageResult.error] [] 0 0).fetchCount
        = 0 + 1 ↔
      ¬ (50 ≤ histOld.length ∧
          ∀ id ∈ histOld.map Prod.fst, lookupA ([] : List (String × Trade)) id = none)) :=
  ⟨by decide, (syncPages_stop_iff histOld [PageResult.error] [] 0 0 (by decide)).1,
    (syncPages_stop_iff histOld [PageResult.error] [] 0 0 (by decide)).2⟩

/-- C1 amended: a full page of 50 unseen records followed by a gateway
error on the next page stops the sync after the second fetch and keeps all
merged records; but because at least one new record was merged, totalCount
and lastFetchTime ARE updated (lastFetchTime is set to the current clock)
and the ledger is persisted, and the call returns through the same path as
a success, with no distinct sync-failed signal and no fatal error. -/
theorem fetchNewTrades_error_midsync (records : List (String × Trade))
    (rest : List PageResult) (pairs : List (String × String)) (now : ℚ)
    (s : BotState)
    (h50 : records.length = 50)
    (hnew : ∀ id ∈ records.map Prod.fst,
      lookupA s.fullTradeHistory.trades id = none)
    (hnd : (records.map Prod.fst).Nodup) :
    (fetchNewTrades
        (PageResult.page records :: PageResult.error :: rest)
        pairs now s).fetchCount = 2 ∧
    (fetchNewTrades (PageResult.page records :: PageResult.error :: rest)
        pairs now s).newTradesCount = 50 ∧
    (fetchNewTrades (PageResult.page records :: PageResult.error :: rest)
        pairs now s).state.fullTradeHistory.trades =
      s.fullTradeHistory.trades ++ records ∧
    (fetchNewTrades (PageResult.page records :: PageResult.error :: rest)
        pairs now s).state.fullTradeHistory.lastFetchTime = some now ∧
    (fetchNewTrades (PageResult.page records :: PageResult.error :: rest)
        pairs now s).state.fullTradeHistory.totalCount =
      s.fullTradeHistory.trades.length + 50 ∧
    (fetchNewTrades (PageResult.page records :: PageResult.error :: rest)
        pairs now s).savedTradeHistory = true := by
  have hout : syncPages
      (PageResult.page records :: PageResult.error :: rest)
      s.fullTradeHistory.trades 0 0 =
      { trades := s.fullTradeHistory.trades ++ records,
        newTradesCount := records.length, fetchCount := 2 } := by
    rw [syncPages, if_neg (by omega : ¬ records.length = 0)]
    simp only
    rw [mergePage_all_new0 records s.fullTradeHistory.trades hnew hnd]
    rw [if_neg (fun hc => absurd (hc : records.length = 0) (by omega))]
    rw [if_neg (by omega : ¬ records.length < 50)]
    rw [if_neg (fun hc => Bool.noConfusion (hc : (false : Bool) = true))]
    rw [syncPages]
    simp
  refine ⟨?_, ?_, ?_, ?_, ?_, ?_⟩
  · show (syncPages _ _ 0 0).fetchCount = 2
    rw [hout]
  · show (syncPages _ _ 0 0).newTradesCount = 50
    rw [hout]; exact h50
  · show (buildCostBasisState pairs now _).fullTradeHistory.trades = _
    simp only [fetchNewTrades, buildCostBasisState, hout]
    rw [if_pos (by omega : 0 < records.length)]
  · show (buildCostBasisState pairs now _).fullTradeHistory.lastFetchTime
        = some now
    simp only [fetchNewTrades, buildCostBasisState, hout]
    rw [if_pos (by omega : 0 < records.length)]
  · show (buildCostBasisState pairs now _).fullTradeHistory.totalCount = _
    simp only [fetchNewTrades, buildCostBasisState, hout]
    rw [if_pos (by omega : 0 < records.length)]
    simp [h50]
  · show decide (0 < (syncPages _ _ 0 0).newTradesCount) = true
    rw [hout]
    simp
    omega

/-- C10: every completed fetchNewTrades call rebuilds the per-asset
cost-basis map from scratch out of the post-sync ledger and persists both
the cost-basis and analytics stores, whatever happened during paging; the
trade-ledger fields are updated and persisted exactly when at least one
new record was merged, and are untouched (and not persisted) otherwise. -/
theorem fetchNewTrades_frame (pages : List PageResult)
    (pairs : List (String × String)) (now : ℚ) (s : BotState) :
    (fetchNewTrades pages pairs now s).savedCostBasis = true ∧
    (fetchNewTrades pages pairs now s).savedAnalytics = true ∧
    (fetchNewTrades pages pairs now s).state.costBasis =
      (buildCostBasis
        (fetchNewTrades pages pairs now s).state.fullTradeHistory.trades
        pairs now).1 ∧
    (fetchNewTrades pages pairs now s).state.tradeAnalytics =
      (buildCostBasis
        (fetchNewTrades pages pairs now s).state.fullTradeHistory.trades
        pairs now).2 ∧
    ((fetchNewTrades pages pairs now s).savedTradeHistory = true ↔
      0 < (fetchNewTrades pages pairs now s).newTradesCount) ∧
    ((fetchNewTrades pages pairs now s).newTradesCount = 0 →
      (fetchNewTrades pages pairs now s).state.fullTradeHistory =
          s.fullTradeHistory ∧
        (fetchNewTrades pages pairs now s).savedTradeHistory = false) ∧
    (0 < (fetchNewTrades pages pairs now s).newTradesCount →
      (fetchNewTrades pages pairs now s).state.fullTradeHistory.lastFetchTime
          = some now ∧
        (fetchNewTrades pages pairs now s).state.fullTradeHistory.totalCount
          = (fetchNewTrades pages pairs
              now s).state.fullTradeHistory.trades.length) := by
  refine ⟨rfl, rfl, rfl, rfl, by simp [fetchNewTrades], ?_, ?_⟩
  · intro h
    have h0 : (syncPages pages s.fullTradeHistory.trades 0 0).newTradesCount
        = 0 := h
    have htr := syncPages_trades_of_no_new pages s.fullTradeHistory.trades
      0 0 h0
    constructor
    · show (buildCostBasisState pairs now _).fullTradeHistory =
        s.fullTradeHistory
      simp only [fetchNewTrades, buildCostBasisState, h0, htr]
      rw [if_neg (by omega : ¬ (0:Nat) < 0)]
    · show decide
        (0 < (syncPages pages s.fullTradeHistory.trades 0 0).newTradesCount)
          = false
      rw [h0]
      rfl
  · intro h
    have h0 : 0 <
        (syncPages pages s.fullTradeHistory.trades 0 0).newTradesCount := h
    constructor
    · show (buildCostBasisState pairs now _).fullTradeHistory.lastFetchTime
        = some now
      simp only [fetchNewTrades, buildCostBasisState]
      rw [if_pos h0]
    · show (buildCostBasisState pairs now _).fullTradeHistory.totalCount = _
      simp only [fetchNewTrades, buildCostBasisState]
      rw [if_pos h0]

/-- C1 counterexample: with one full page of 50 new records followed by a
gateway error, the merged records are kept but lastFetchTime does NOT keep
its pre-sync value of some 111 — it is overwritten with the current clock,
contrary to the claim that it is left unchanged. -/
theorem fetchNewTrades_error_lastFetchTime_changed_cex :
    stateOld.fullTradeHistory.lastFetchTime = some 111 ∧
    (fetchNewTrades [PageResult.page page50, PageResult.error] [] 999000
        stateOld).state.fullTradeHistory.lastFetchTime = some 999000 ∧
    ¬ ((fetchNewTrades [PageResult.page page50, PageResult.error] [] 999000
        stateOld).state.fullTradeHistory.lastFetchTime =
      stateOld.fullTradeHistory.lastFetchTime) := by
  refine ⟨rfl, by decide, by decide⟩

/-- C1 amended witness: the concrete instance of the mid-sync-error run —
two fetches, 50 records merged and kept, lastFetchTime set to the clock,
ledger persisted. -/
theorem fetchNewTrades_error_midsync_witness :
    page50.length = 50 ∧
    (fetchNewTrades [PageResult.page page50, PageResult.error] [] 999000
        stateOld).fetchCount = 2 ∧
    (fetchNewTrades [PageResult.page page50, PageResult.error] [] 999000
        stateOld).state.fullTradeHistory.trades = histOld ++ page50 ∧
    (fetchNewTrades [PageResult.page page50, PageResult.error] [] 999000
        stateOld).state.fullTradeHistory.lastFetchTime = some 999000 ∧
    (fetchNewTrades [PageResult.page page50, PageResult.error] [] 999000
        stateOld).savedTradeHistory = true := by
  have h := fetchNewTrades_error_midsync page50 [] [] 999000 stateOld
    (by decide) (by decide) (by decide)
  exact ⟨by decide, h.1, h.2.2.1, h.2.2.2.1, h.2.2.2.2.2⟩

/-- C3 counterexample: a full page of 50 records that contains both a
previously-known id (t0) and unseen ids; the claim says the sync advances
the offset and fetches a second page, but the loop performs exactly one
fetch. -/
theorem syncPages_mixed_page_stops_cex :
    page50.length = 50 ∧
    "t0" ∈ page50.map Prod.fst ∧ (lookupA histT0 "t0").isSome = true ∧
    "t1" ∈ page50.map Prod.fst ∧ lookupA histT0 "t1" = none ∧
    (syncPages [PageResult.page page50, PageResult.page []] histT0 0
        0).newTradesCount = 49 ∧
    (syncPages [PageResult.page page50, PageResult.page []] histT0 0
        0).fetchCount = 1 ∧
    ¬ ((syncPages [PageResult.page page50, PageResult.page []] histT0 0
        0).fetchCount = 2) := by
  decide

/-- C8 witness: a one-record remote history already present in the ledger
is synced with exactly one fetch, leaving the ledger untouched. -/
theorem fetchNewTrades_converged_witness :
    stateOld.fullTradeHistory.trades ≠ [] ∧
    (fetchNewTrades [PageResult.page histOld] [] 222
        stateOld).fetchCount = 1 ∧
    (fetchNewTrades [PageResult.page histOld] [] 222
        stateOld).state.fullTradeHistory = stateOld.fullTradeHistory := by
  have h := fetchNewTrades_converged [PageResult.page histOld] [] 222
    stateOld (by decide) (by decide) ?_
  · exact ⟨by decide, h.1, h.2⟩
  · intro records hr id hid
    simp only [List.mem_singleton, PageResult.page.injEq] at hr
    subst hr
    revert id hid
    decide

/-- C10 witness: a sync that found nothing new still persists the
cost-basis and analytics stores, while the trade ledger is untouched and
not persisted. -/
theorem fetchNewTrades_frame_witness :
    (fetchNewTrades [PageResult.page []] [] 333
        stateOld).savedCostBasis = true ∧
    (fetchNewTrades [PageResult.page []] [] 333
        stateOld).newTradesCount = 0 ∧
    (fetchNewTrades [PageResult.page []] [] 333
        stateOld).state.fullTradeHistory = stateOld.fullTradeHistory ∧
    (fetchNewTrades [PageResult.page []] [] 333
        stateOld).savedTradeHistory = false :=
  ⟨(fetchNewTrades_frame [PageResult.page []] [] 333 stateOld).1,
    by decide,
    ((fetchNewTrades_frame [PageResult.page []] [] 333
        stateOld).2.2.2.2.2.1 (by decide)).1,
    ((fetchNewTrades_frame [PageResult.page []] [] 333
        stateOld).2.2.2.2.2.1 (by decide)).2⟩

theorem fifoLoop_conserve :
    ∀ (lots : List Lot) (r cbu am : ℚ),
      remainingSum (fifoLoop lots r cbu am).1 +
          (fifoLoop lots r cbu am).2.2 =
        remainingSum lots + am := by
  intro lots
  induction lots with
  | nil => intro r cbu am; simp [fifoLoop]
  | cons lot rest ih =>
    intro r cbu am
    rw [fifoLoop]
    by_cases hr : 0 < r
    · rw [if_pos hr]
      simp only
      by_cases hd : lot.remaining - min r lot.remaining ≤ 0
      · rw [if_pos hd]
        have hu : min r lot.remaining = lot.remaining :=
          le_antisymm (min_le_right _ _) (by linarith)
        have := ih (r - min r lot.remaining)
          (cbu + min r lot.remaining * lot.price)
          (am + min r lot.remaining)
        rw [this, hu]
        simp [remainingSum]
        ring
      · rw [if_neg hd]
        simp [remainingSum]
        ring
    · rw [if_neg hr]

theorem applyTrade_conserve (cb : CostBasis) (t : Trade) :
    remainingSum (applyTrade cb t).lots + matchedSum (applyTrade cb t) =
      remainingSum cb.lots + matchedSum cb +
        (if t.type = "buy" then t.vol else 0) := by
  by_cases hb : t.type = "buy"
  · rw [if_pos hb]
    simp only [applyTrade, if_pos hb]
    simp [remainingSum, matchedSum]
    ring
  · rw [if_neg hb]
    by_cases hs : t.type = "sell"
    · simp only [applyTrade, if_neg hb, if_pos hs]
      simp only [remainingSum, matchedSum, List.map_append,
        List.sum_append, List.map_cons, List.map_nil, List.sum_cons,
        List.sum_nil]
      have := fifoLoop_conserve cb.lots t.vol 0 0
      simp only [remainingSum] at this
      linarith
    · simp only [applyTrade, if_neg hb, if_neg hs]
      ring

theorem lookupA_setA_self {β : Type} :
    ∀ (m : List (String × β)) (k : String) (v : β),
      lookupA (setA m k v) k = some v := by
  intro m k v
  induction m with
  | nil => simp [setA, lookupA]
  | cons p rest ih =>
    rw [setA]
    by_cases hk : p.1 = k
    · rw [if_pos hk, lookupA, if_pos hk]
    · rw [if_neg hk, lookupA, if_neg hk]
      exact ih

theorem lookupA_setA_ne {β : Type} :
    ∀ (m : List (String × β)) (k : String) (v : β) (a : String),
      ¬ a = k → lookupA (setA m k v) a = lookupA m a := by
  intro m k v a ha
  induction m with
  | nil =>
    show lookupA [(k, v)] a = lookupA [] a
    simp [lookupA, Ne.symm ha]
  | cons p rest ih =>
    obtain ⟨pk, pw⟩ := p
    rw [setA]
    by_cases hk : pk = k
    · rw [if_pos hk]
      show lookupA ((pk, v) :: rest) a = lookupA ((pk, pw) :: rest) a
      rw [lookupA, lookupA]
      by_cases hpa : pk = a
      · exact absurd (hpa ▸ hk) ha
      · rw [if_neg hpa, if_neg hpa]
    · rw [if_neg hk]
      show lookupA ((pk, pw) :: setA rest k v) a =
        lookupA ((pk, pw) :: rest) a
      rw [lookupA, lookupA]
      by_cases hpa : pk = a
      · rw [if_pos hpa, if_pos hpa]
      · rw [if_neg hpa, if_neg hpa]
        exact ih

theorem replayStep_conserve (pairs : List (String × String))
    (m : List (String × CostBasis)) (t : Trade) (asset : String) :
    remainingSum (cbOf (replayStep pairs m t) asset).lots +
        matchedSum (cbOf (replayStep pairs m t) asset) =
      remainingSum (cbOf m asset).lots + matchedSum (cbOf m asset) +
        (if t.type = "buy" ∧ getAssetFromPair pairs t.pair = asset
          then t.vol else 0) := by
  simp only [replayStep]
  by_cases ha : asset = getAssetFromPair pairs t.pair
  · have h1 : cbOf (setA m (getAssetFromPair pairs t.pair)
        (applyTrade (cbOf m (getAssetFromPair pairs t.pair)) t)) asset =
        applyTrade (cbOf m (getAssetFromPair pairs t.pair)) t := by
      rw [cbOf, ha, lookupA_setA_self]
      rfl
    rw [h1, ha]
    have h2 := applyTrade_conserve
      (cbOf m (getAssetFromPair pairs t.pair)) t
    by_cases hb : t.type = "buy"
    · rw [if_pos hb] at h2
      rw [if_pos ⟨hb, rfl⟩]
      exact h2
    · rw [if_neg hb] at h2
      rw [if_neg (fun hc => hb hc.1)]
      exact h2
  · have h1 : lookupA (setA m (getAssetFromPair pairs t.pair)
        (applyTrade (cbOf m (getAssetFromPair pairs t.pair)) t)) asset =
        lookupA m asset :=
      lookupA_setA_ne m _ _ asset ha
    rw [if_neg (fun hc => ha hc.2.symm)]
    have h2 : cbOf (setA m (getAssetFromPair pairs t.pair)
        (applyTrade (cbOf m (getAssetFromPair pairs t.pair)) t)) asset =
        cbOf m asset := by
      rw [cbOf, h1, cbOf]
    rw [h2]
    ring

theorem replayTrades_conserve (pairs : List (String × String)) :
    ∀ (trades : List Trade) (m : List (String × CostBasis))
      (asset : String),
      remainingSum (cbOf (trades.foldl (replayStep pairs) m) asset).lots +
          matchedSum (cbOf (trades.foldl (replayStep pairs) m) asset) =
        remainingSum (cbOf m asset).lots + matchedSum (cbOf m asset) +
          buyVolume pairs asset trades := by
  intro trades
  induction trades with
  | nil => intro m asset; simp [buyVolume]
  | cons t rest ih =>
    intro m asset
    rw [List.foldl_cons]
    rw [ih (replayStep pairs m t) asset]
    rw [replayStep_conserve]
    have hbv : buyVolume pairs asset (t :: rest) =
        (if t.type = "buy" ∧ getAssetFromPair pairs t.pair = asset
          then t.vol else 0) + buyVolume pairs asset rest := by
      by_cases hc : t.type = "buy" ∧ getAssetFromPair pairs t.pair = asset
      · simp [buyVolume, List.filter_cons, hc]
      · simp [buyVolume, List.filter_cons, hc]
    rw [hbv]
    ring

/-- C7: conservation of volume — for every trade ledger and every asset,
the remaining amounts of the surviving lots plus the amountMatched of all
recorded CompletedTrades add up to the total bought volume of that asset,
over the whole replay done by buildCostBasis. -/
theorem buildCostBasis_conservation (tradesMap : List (String × Trade))
    (pairs : List (String × String)) (now : ℚ) (asset : String) :
    remainingSum (cbOf (buildCostBasis tradesMap pairs now).1 asset).lots +
        matchedSum (cbOf (buildCostBasis tradesMap pairs now).1 asset) =
      buyVolume pairs asset (tradesMap.map Prod.snd) := by
  have h1 : (buildCostBasis tradesMap pairs now).1 =
      ((tradesMap.map Prod.snd).insertionSort
        (fun a b => a.time ≤ b.time)).foldl (replayStep pairs) [] := rfl
  rw [h1]
  rw [replayTrades_conserve pairs _ [] asset]
  have h0 : remainingSum (cbOf [] asset).lots +
      matchedSum (cbOf [] asset) = 0 := by
    simp [cbOf, lookupA, emptyCostBasis, remainingSum, matchedSum]
  rw [h0, zero_add]
  have hperm := List.perm_insertionSort
    (fun (a b : Trade) => a.time ≤ b.time) (tradesMap.map Prod.snd)
  exact List.Perm.sum_eq (List.Perm.map _ (List.Perm.filter _ hperm))

theorem accumTrade_recent (a : String) (w : ℚ) (acc : AnalyticsAccum)
    (t : CompletedTrade) :
    (accumTrade a w acc t).recentActivity = acc.recentActivity ++
      [{ asset := a, pnl := t.pnl, pnlPercent := t.pnlPercent,
         sellTime := t.sellTime, sellPrice := t.sellPrice }] := by
  by_cases h1 : 0 ≤ t.pnl <;> by_cases h2 : w ≤ t.sellTime <;>
    simp [accumTrade, h1, h2]

theorem accumTrade_weeklyPnL (a : String) (w : ℚ) (acc : AnalyticsAccum)
    (t : CompletedTrade) :
    (accumTrade a w acc t).weeklyPnL =
      acc.weeklyPnL + (if w ≤ t.sellTime then t.pnl else 0) := by
  by_cases h1 : 0 ≤ t.pnl <;> by_cases h2 : w ≤ t.sellTime <;>
    simp [accumTrade, h1, h2]

theorem foldl_accumTrade_recent (a : String) (w : ℚ) :
    ∀ (ts : List CompletedTrade) (acc : AnalyticsAccum),
      (ts.foldl (accumTrade a w) acc).recentActivity =
        acc.recentActivity ++ ts.map (fun t =>
          ({ asset := a, pnl := t.pnl, pnlPercent := t.pnlPercent,
             sellTime := t.sellTime,
             sellPrice := t.sellPrice } : ActivityEntry)) := by
  intro ts
  induction ts with
  | nil => intro acc; simp
  | cons t rest ih =>
    intro acc
    rw [List.foldl_cons, ih, accumTrade_recent]
    simp

theorem foldl_accumTrade_weekly (a : String) (w : ℚ) :
    ∀ (ts : List CompletedTrade) (acc : AnalyticsAccum),
      (ts.foldl (accumTrade a w) acc).weeklyPnL =
        acc.weeklyPnL + ((ts.filter (fun t => w ≤ t.sellTime)).map
          (fun t => t.pnl)).sum := by
  intro ts
  induction ts with
  | nil => intro acc; simp
  | cons t rest ih =>
    intro acc
    rw [List.foldl_cons, ih, accumTrade_weeklyPnL]
    by_cases h2 : w ≤ t.sellTime <;>
      simp [List.filter_cons, h2] <;> ring

theorem foldl_accumAsset_recent (w : ℚ) :
    ∀ (m : List (String × CostBasis)) (acc : AnalyticsAccum),
      (m.foldl (accumAsset w) acc).recentActivity =
        acc.recentActivity ++ allActivity m := by
  intro m
  induction m with
  | nil => intro acc; simp [allActivity]
  | cons e rest ih =>
    intro acc
    rw [List.foldl_cons, ih]
    show (e.2.completedTrades.foldl (accumTrade e.1 w) _).recentActivity
        ++ allActivity rest = _
    rw [foldl_accumTrade_recent]
    simp [allActivity, activityOf, List.append_assoc]

theorem activity_filter_pnl (a : String) (w : ℚ) :
    ∀ (l : List CompletedTrade),
      (((l.map (fun t =>
          ({ asset := a, pnl := t.pnl, pnlPercent := t.pnlPercent,
             sellTime := t.sellTime,
             sellPrice := t.sellPrice } : ActivityEntry))).filter
        (fun e => w ≤ e.sellTime)).map (fun e => e.pnl)) =
      ((l.filter (fun t => w ≤ t.sellTime)).map (fun t => t.pnl)) := by
  intro l
  induction l with
  | nil => simp
  | cons t rest ih =>
    by_cases h : w ≤ t.sellTime <;> simp [List.filter_cons, h, ih]

theorem foldl_accumAsset_weekly (w : ℚ) :
    ∀ (m : List (String × CostBasis)) (acc : AnalyticsAccum),
      (m.foldl (accumAsset w) acc).weeklyPnL =
        acc.weeklyPnL + (((allActivity m).filter
          (fun e => w ≤ e.sellTime)).map (fun e => e.pnl)).sum := by
  intro m
  induction m with
  | nil => intro acc; simp [allActivity]
  | cons e rest ih =>
    intro acc
    rw [List.foldl_cons, ih]
    show (e.2.completedTrades.foldl (accumTrade e.1 w) _).weeklyPnL + _ = _
    rw [foldl_accumTrade_weekly]
    have hact : allActivity (e :: rest) =
        activityOf e.1 e.2 ++ allActivity rest := by
      simp [allActivity]
    rw [hact]
    rw [List.filter_append, List.map_append, List.sum_append]
    rw [show activityOf e.1 e.2 = e.2.completedTrades.map (fun t =>
      ({ asset := e.1, pnl := t.pnl, pnlPercent := t.pnlPercent,
         sellTime := t.sellTime,
         sellPrice := t.sellPrice } : ActivityEntry)) from rfl]
    rw [activity_filter_pnl]
    ring

theorem displayedTally_go :
    ∀ (l : List ActivityEntry) (a b c : ℚ),
      l.foldl (fun acc t =>
          (acc.1 + t.pnl,
            (if 0 ≤ t.pnl then acc.2.1 + 1 else acc.2.1),
            (if 0 ≤ t.pnl then acc.2.2 else acc.2.2 + 1))) (a, b, c) =
        (a + (l.map (fun t => t.pnl)).sum,
          b + ((l.filter (fun t => 0 ≤ t.pnl)).length : ℚ),
          c + ((l.filter (fun t => ¬ 0 ≤ t.pnl)).length : ℚ)) := by
  intro l
  induction l with
  | nil => intro a b c; simp
  | cons t rest ih =>
    intro a b c
    rw [List.foldl_cons]
    by_cases h : 0 ≤ t.pnl
    · simp only [if_pos h]
      rw [ih]
      simp [List.filter_cons, h]
      constructor
      · ring
      · ring
    · have h2 : t.pnl < 0 := not_le.mp h
      simp only [if_neg h]
      rw [ih]
      simp [List.filter_cons, h, h2]
      constructor
      · ring
      · ring

theorem displayedTally_eq (l : List ActivityEntry) :
    displayedTally l =
      ((l.map (fun t => t.pnl)).sum,
        ((l.filter (fun t => 0 ≤ t.pnl)).length : ℚ),
        ((l.filter (fun t => ¬ 0 ≤ t.pnl)).length : ℚ)) := by
  rw [displayedTally, displayedTally_go]
  simp

theorem buildAnalytics_count_window (m : List (String × CostBasis))
    (now : ℚ) :
    (buildAnalytics m now).recentActivity = specCountWindow m ∧
    (buildAnalytics m now).summary.weeklyPnL = specCountWindowPnL m ∧
    (buildAnalytics m now).summary.weeklyWinRate =
      specCountWindowWinRate m := by
  have hrec : (m.foldl (accumAsset (oneWeekAgoOf now))
      analyticsInit).recentActivity = allActivity m := by
    rw [foldl_accumAsset_recent]
    simp [analyticsInit]
  refine ⟨?_, ?_, ?_⟩
  · show ((m.foldl (accumAsset (oneWeekAgoOf now))
        analyticsInit).recentActivity.insertionSort
          (fun a b => b.sellTime ≤ a.sellTime)).take 50 = specCountWindow m
    rw [hrec]
    rfl
  · show (displayedTally (((m.foldl (accumAsset (oneWeekAgoOf now))
        analyticsInit).recentActivity.insertionSort
          (fun a b => b.sellTime ≤ a.sellTime)).take 50)).1 =
      specCountWindowPnL m
    rw [hrec, displayedTally_eq]
    rfl
  · show (if 0 < (displayedTally _).2.1 + (displayedTally _).2.2
        then (displayedTally _).2.1 /
          ((displayedTally _).2.1 + (displayedTally _).2.2) * 100
        else 0) = specCountWindowWinRate m
    rw [hrec, displayedTally_eq]
    rw [specCountWindowWinRate]
    simp only
    by_cases h : 0 < ((specCountWindow m).filter
          (fun t => 0 ≤ t.pnl)).length +
        ((specCountWindow m).filter (fun t => ¬ 0 ≤ t.pnl)).length
    · rw [if_pos (by exact_mod_cast h), if_pos h]
      rfl
    · rw [if_neg (by exact_mod_cast h), if_neg h]

/-- C2 amended: buildCostBasis computes both derived views, but surfaces
only the count window — the summary fields weeklyPnL and weeklyWinRate
hold the P&L sum and win rate of the 50 most-recent slice (also output as
recentActivity), while the time window's aggregates are accumulated
internally and discarded. -/
theorem buildCostBasis_windows (tradesMap : List (String × Trade))
    (pairs : List (String × String)) (now : ℚ) :
    (buildCostBasis tradesMap pairs now).2.recentActivity =
      specCountWindow (buildCostBasis tradesMap pairs now).1 ∧
    (buildCostBasis tradesMap pairs now).2.summary.weeklyPnL =
      specCountWindowPnL (buildCostBasis tradesMap pairs now).1 ∧
    (buildCostBasis tradesMap pairs now).2.summary.weeklyWinRate =
      specCountWindowWinRate (buildCostBasis tradesMap pairs now).1 ∧
    ((buildCostBasis tradesMap pairs now).1.foldl
        (accumAsset (oneWeekAgoOf now)) analyticsInit).weeklyPnL =
      specTimeWindowPnL (buildCostBasis tradesMap pairs now).1 now := by
  refine ⟨(buildAnalytics_count_window _ now).1,
    (buildAnalytics_count_window _ now).2.1,
    (buildAnalytics_count_window _ now).2.2, ?_⟩
  rw [foldl_accumAsset_weekly]
  simp [analyticsInit, specTimeWindowPnL]

/-- C2 counterexample: two winning sells, one outside the 7-day window
with pnl 100 and one inside with pnl 7.  The time window's own P&L sum is
7 and the count window's is 107; the summary surfaces 107 under the
weeklyPnL label and the value 7 appears in none of its fields, so the two
views are not surfaced separately. -/
theorem buildCostBasis_time_window_not_surfaced_cex :
    specTimeWindowPnL (buildCostBasis trades4 [] now0).1 now0 = 7 ∧
    specCountWindowPnL (buildCostBasis trades4 [] now0).1 = 107 ∧
    summaryValues (buildCostBasis trades4 [] now0).2.summary =
      [2, 107, 107, 2, 0, 100, 100] ∧
    ¬ ((7 : ℚ) ∈ summaryValues
        (buildCostBasis trades4 [] now0).2.summary) := by
  decide

end KrakenBot
